import Mathlib

/-!
Shallow embedding of `ruth/globalview.py` (class `GlobalView`): the segment
state index, speed aggregation, the level-of-service model and retention.

Modelling conventions:
* Python `dict`s become association lists (`List (κ × α)`), which preserve
  key insertion order like CPython dicts; `alistGet` is `dict.get`,
  `alistSet` is `d[k] = v` (overwrite in place, append if absent).
* Speeds, offsets, lengths and PCU values are `ℚ`; timestamps and
  `timedelta` tolerances are `ℤ`; vehicle ids are `ℤ` (the sentinel `-1`
  means "no reference vehicle"); segment ids are `ℕ`.
* `float("inf")` becomes the dedicated constructor `LoS.inf`.
* `DEFAULT_VEHICLE_CLASSES` lives in `ruth/vehicle_types.py`, outside the
  sources at hand; the class table is therefore a parameter
  (`VehicleClasses`), whose `lookup` mirrors the code's
  `DEFAULT_VEHICLE_CLASSES.get(t, DEFAULT_VEHICLE_CLASSES["car"])`.
-/

namespace Ruth

/-- `dict.get k`: first binding of `k` in an association list. -/
def alistGet {κ α : Type} [DecidableEq κ] : List (κ × α) → κ → Option α
  | [], _ => none
  | (k', v) :: rest, k => if k' = k then some v else alistGet rest k

/-- `d[k] = v`: overwrite the first binding of `k` in place, append if absent. -/
def alistSet {κ α : Type} [DecidableEq κ] : List (κ × α) → κ → α → List (κ × α)
  | [], k, v => [(k, v)]
  | (k', v') :: rest, k, v =>
      if k' = k then (k, v) :: rest else (k', v') :: alistSet rest k v

/-- One floating-car-data observation (`FCDRecord` in
`ruth/simulator/simulation.py`); `segment_id` stands for `fcd.segment.id`. -/
structure FCDRecord where
  vehicle_id : ℤ
  vehicle_type : String
  segment_id : ℕ
  start_offset : ℚ
  datetime : ℤ
  speed : ℚ
deriving DecidableEq, Repr

/-- A road segment as consumed by the LoS model: `id`, `length` (meters),
`lanes` (count). -/
structure Segment where
  id : ℕ
  length : ℚ
  lanes : ℕ
deriving DecidableEq, Repr

/-- One vehicle class entry of the class table
(pcu, length_m, standstill_gap_m, name). -/
structure VehicleClass where
  pcu : ℚ
  length_m : ℚ
  standstill_gap_m : ℚ
  name : String
deriving DecidableEq, Repr

/-- The vehicle class table `DEFAULT_VEHICLE_CLASSES`: a lookup by type name
plus the mandatory `"car"` entry used as fallback. -/
structure VehicleClasses where
  get : String → Option VehicleClass
  car : VehicleClass

/-- `DEFAULT_VEHICLE_CLASSES.get(t, DEFAULT_VEHICLE_CLASSES["car"])`. -/
def VehicleClasses.lookup (VC : VehicleClasses) (t : String) : VehicleClass :=
  (VC.get t).getD VC.car

/-- The mutable state of `GlobalView`: `fcd_by_segment` (a
`defaultdict(list)`), `car_to_segment`, and `modified_segments`. -/
structure GlobalView where
  fcd_by_segment : List (ℕ × List FCDRecord)
  car_to_segment : List (ℤ × ℕ)
  modified_segments : Finset ℕ

/-- `GlobalView.__init__`: all three containers empty. -/
def GlobalView.empty : GlobalView :=
  { fcd_by_segment := [], car_to_segment := [], modified_segments := ∅ }

/-- The observation list of a segment as observed through the
`defaultdict`: the stored list, or `[]` when the key is absent. -/
def GlobalView.obs (gv : GlobalView) (segment_id : ℕ) : List FCDRecord :=
  (alistGet gv.fcd_by_segment segment_id).getD []

/-- `GlobalView.add`: append the record to its segment's list and mark the
segment modified; when the vehicle's previous segment exists and differs,
mark it too and move the vehicle, and when the vehicle is new, record it. -/
def GlobalView.add (gv : GlobalView) (fcd : FCDRecord) : GlobalView :=
  let fbs := alistSet gv.fcd_by_segment fcd.segment_id (gv.obs fcd.segment_id ++ [fcd])
  let mods := insert fcd.segment_id gv.modified_segments
  match alistGet gv.car_to_segment fcd.vehicle_id with
  | some old_segment =>
      if old_segment ≠ fcd.segment_id then
        { fcd_by_segment := fbs,
          car_to_segment := alistSet gv.car_to_segment fcd.vehicle_id fcd.segment_id,
          modified_segments := insert old_segment mods }
      else
        { fcd_by_segment := fbs,
          car_to_segment := gv.car_to_segment,
          modified_segments := mods }
  | none =>
      { fcd_by_segment := fbs,
        car_to_segment := alistSet gv.car_to_segment fcd.vehicle_id fcd.segment_id,
        modified_segments := mods }

/-- Insert a record into a list already sorted by timestamp, before any
later-stored record with the same timestamp (stability). -/
def insertByDatetime (fcd : FCDRecord) : List FCDRecord → List FCDRecord
  | [] => [fcd]
  | y :: ys =>
      if y.datetime < fcd.datetime then y :: insertByDatetime fcd ys
      else fcd :: y :: ys

/-- `by_segment.sort(key=lambda fcd: fcd.datetime)` — a stable sort by
timestamp ascending (CPython's list sort is stable). -/
def sortByDatetime (l : List FCDRecord) : List FCDRecord :=
  l.foldr insertByDatetime []

/-- The `speeds` dict build of `get_segment_speed`: fold the (sorted) list,
overwriting each vehicle's speed so its last occurrence wins. -/
def dedupLastWins (l : List FCDRecord) : List (ℤ × ℚ) :=
  l.foldl (fun acc fcd => alistSet acc fcd.vehicle_id fcd.speed) []

/-- `GlobalView.get_segment_speed` (value level): snapshot the segment's
list, stable-sort by timestamp, keep each vehicle's last speed, and return
the mean, or `none` when there are no observations. -/
def GlobalView.get_segment_speed (gv : GlobalView) (segment_id : ℕ) : Option ℚ :=
  let speeds := (dedupLastWins (sortByDatetime (gv.obs segment_id))).map Prod.snd
  if speeds.length = 0 then none
  else some (speeds.sum / (speeds.length : ℚ))

/-- `GlobalView.get_segment_speed` with its state effect made explicit:
`self.fcd_by_segment[segment_id]` on a `defaultdict` inserts the key with
`[]` when it is absent (and otherwise leaves the dict as it is). -/
def GlobalView.get_segment_speed_run (gv : GlobalView) (segment_id : ℕ) :
    Option ℚ × GlobalView :=
  (gv.get_segment_speed segment_id,
   { gv with fcd_by_segment := alistSet gv.fcd_by_segment segment_id (gv.obs segment_id) })

/-- `GlobalView.take_segment_speeds`: the returned dict, modelled as a
partial map whose keys are exactly the modified segments, each mapped to
its `get_segment_speed` value; afterwards the modified set is cleared. -/
def GlobalView.take_segment_speeds (gv : GlobalView) :
    (ℕ → Option (Option ℚ)) × GlobalView :=
  (fun segment_id =>
     if segment_id ∈ gv.modified_segments then some (gv.get_segment_speed segment_id)
     else none,
   { gv with modified_segments := ∅ })

/-- The retention filter of `drop_old`: keep `fcd.datetime >= dt_threshold`. -/
def keepRecent (dt_threshold : ℤ) (fcd : FCDRecord) : Bool :=
  dt_threshold ≤ fcd.datetime

/-- `GlobalView.drop_old`: for every stored segment, replace its list by the
filtered one when the length changed, and mark exactly those segments
modified (on top of the existing marks). -/
def GlobalView.drop_old (gv : GlobalView) (dt_threshold : ℤ) : GlobalView :=
  { gv with
    fcd_by_segment := gv.fcd_by_segment.map (fun p =>
      if (p.2.filter (keepRecent dt_threshold)).length ≠ p.2.length then
        (p.1, p.2.filter (keepRecent dt_threshold))
      else p),
    modified_segments := gv.modified_segments ∪
      ((gv.fcd_by_segment.filter (fun p =>
          (p.2.filter (keepRecent dt_threshold)).length ≠ p.2.length)).map Prod.fst).toFinset }

/-- The body of the `load_ahead` loop: an FCD record qualifies when its
timestamp is within the tolerance window, its vehicle differs from the
reference vehicle, and its offset strictly exceeds the reference offset. -/
def qualifies (datetime tol : ℤ) (vehicle_id : ℤ) (vehicle_offset_m : ℚ)
    (fcd : FCDRecord) : Prop :=
  (datetime - tol ≤ fcd.datetime ∧ fcd.datetime ≤ datetime + tol) ∧
  fcd.vehicle_id ≠ vehicle_id ∧ vehicle_offset_m < fcd.start_offset

instance (datetime tol : ℤ) (vehicle_id : ℤ) (vehicle_offset_m : ℚ) (fcd : FCDRecord) :
    Decidable (qualifies datetime tol vehicle_id vehicle_offset_m fcd) := by
  unfold qualifies; infer_instance

/-- One iteration of the `load_ahead` loop over the accumulated
`vehicles_ahead` dict: a qualifying record whose vehicle is not yet present
adds that vehicle with its resolved class. -/
def vaStep (VC : VehicleClasses) (datetime tol : ℤ) (vehicle_id : ℤ)
    (vehicle_offset_m : ℚ) (acc : List (ℤ × VehicleClass)) (fcd : FCDRecord) :
    List (ℤ × VehicleClass) :=
  if qualifies datetime tol vehicle_id vehicle_offset_m fcd then
    if (alistGet acc fcd.vehicle_id).isSome then acc
    else acc ++ [(fcd.vehicle_id, VC.lookup fcd.vehicle_type)]
  else acc

/-- The `vehicles_ahead` dict build of `load_ahead`: first qualifying
occurrence of each vehicle wins, its class resolved through the table. -/
def vehiclesAhead (VC : VehicleClasses) (datetime tol : ℤ) (vehicle_id : ℤ)
    (vehicle_offset_m : ℚ) (l : List FCDRecord) : List (ℤ × VehicleClass) :=
  l.foldl (vaStep VC datetime tol vehicle_id vehicle_offset_m) []

/-- `GlobalView.load_ahead`: `(total_pcu, total_occupied_length,
vehicles_ahead)` over the qualifying vehicles of the segment; a `none`
tolerance is `timedelta(seconds=0)`. -/
def GlobalView.load_ahead (VC : VehicleClasses) (gv : GlobalView) (datetime : ℤ)
    (segment_id : ℕ) (tolerance : Option ℤ) (vehicle_id : ℤ) (vehicle_offset_m : ℚ) :
    ℚ × ℚ × List (ℤ × VehicleClass) :=
  let tol := tolerance.getD 0
  let vehicles_ahead := vehiclesAhead VC datetime tol vehicle_id vehicle_offset_m
      ((alistGet gv.fcd_by_segment segment_id).getD [])
  ((vehicles_ahead.map (fun p => p.2.pcu)).sum,
   (vehicles_ahead.map (fun p => p.2.length_m + p.2.standstill_gap_m)).sum,
   vehicles_ahead)

/-- The level-of-service result: a finite score or the `float("inf")`
jam sentinel. -/
inductive LoS where
  | inf : LoS
  | val : ℚ → LoS
deriving DecidableEq, Repr

/-- `mile = 1609.344` meters. -/
def mile : ℚ := 1609.344

/-- The `ranges` table: density bands (veh/mi) with their output ranges. -/
def rangesTable : List ((ℚ × ℚ) × (ℚ × ℚ)) :=
  [((0, 12), (0.0, 0.2)),
   ((12, 20), (0.2, 0.4)),
   ((20, 30), (0.4, 0.6)),
   ((30, 42), (0.6, 0.8)),
   ((42, 67), (0.8, 1.0))]

/-- The band-lookup loop: the first band whose upper density bound exceeds
the density interpolates linearly inside it; no match leaves the initial
`float("inf")`. -/
def lookupLoop : List ((ℚ × ℚ) × (ℚ × ℚ)) → ℚ → LoS
  | [], _ => LoS.inf
  | ((low, high), (m, _n)) :: rest, dens =>
      if dens < high then LoS.val (m + (dens - low) * 0.2 / (high - low))
      else lookupLoop rest dens

/-- Lines 89–98 of `level_of_service_in_front_of_vehicle`: band lookup
followed by the `1.0 - los` reversal, with `float("inf")` passing through. -/
def losFromDensity (dens : ℚ) : LoS :=
  match lookupLoop rangesTable dens with
  | LoS.inf => LoS.inf
  | LoS.val los => LoS.val (1 - los)

/-- Lines 80–87: density per mile from the load's PCU total, with the fixed
200 m window when the remaining length is shorter than that. -/
def densityPerMile (segment : Segment) (vehicle_offset_m : ℚ) (sum_pcu : ℚ) : ℚ :=
  let ending_length : ℚ := 200
  let rest_segment_length := segment.length - vehicle_offset_m
  if rest_segment_length < ending_length then sum_pcu * mile / ending_length
  else sum_pcu * mile / (rest_segment_length * (segment.lanes : ℚ))

/-- `GlobalView.level_of_service_in_front_of_vehicle`: load ahead, the jam
short-circuit (guarded by `limit_vehicle_count`, zero offset and a segment
of at least 10 m), then the density model and band lookup. -/
def GlobalView.level_of_service_in_front_of_vehicle (VC : VehicleClasses)
    (gv : GlobalView) (datetime : ℤ) (segment : Segment) (vehicle_id : ℤ)
    (vehicle_offset_m : ℚ) (tolerance : Option ℤ) (limit_vehicle_count : Bool) : LoS :=
  let load := gv.load_ahead VC datetime segment.id tolerance vehicle_id vehicle_offset_m
  let available_length := segment.length - vehicle_offset_m
  if limit_vehicle_count = true ∧ vehicle_offset_m = 0 ∧ 10 ≤ segment.length ∧
      available_length < load.2.1 then
    LoS.inf
  else
    losFromDensity (densityPerMile segment vehicle_offset_m load.1)

/-- `GlobalView.level_of_service_in_time_at_segment`: the convenience form
with no reference vehicle, zero offset, no tolerance. -/
def GlobalView.level_of_service_in_time_at_segment (VC : VehicleClasses)
    (gv : GlobalView) (datetime : ℤ) (segment : Segment) : LoS :=
  gv.level_of_service_in_front_of_vehicle VC datetime segment (-1) 0 none false

/-- The vehicle-to-segment map after one `add`, extracted from the branches
of `GlobalView.add`. -/
def carAfterAdd (carmap : List (ℤ × ℕ)) (fcd : FCDRecord) : List (ℤ × ℕ) :=
  match alistGet carmap fcd.vehicle_id with
  | some old_segment =>
      if old_segment ≠ fcd.segment_id then
        alistSet carmap fcd.vehicle_id fcd.segment_id
      else carmap
  | none => alistSet carmap fcd.vehicle_id fcd.segment_id

/-- The segments one `add` marks dirty: the record's own segment, plus the
vehicle's previous segment when it exists and differs. -/
def touchedByAdd (carmap : List (ℤ × ℕ)) (fcd : FCDRecord) : Finset ℕ :=
  insert fcd.segment_id
    (match alistGet carmap fcd.vehicle_id with
     | some old_segment => if old_segment ≠ fcd.segment_id then {old_segment} else ∅
     | none => ∅)

/-- A sequence of `add` calls, folded left over the state. -/
def GlobalView.addAll (gv : GlobalView) (fcds : List FCDRecord) : GlobalView :=
  fcds.foldl GlobalView.add gv

/-- The dirty segments a sequence of `add` calls produces: every segment
touched directly, and every segment vacated by a moving vehicle. -/
def touchedSegments : List (ℤ × ℕ) → List FCDRecord → Finset ℕ
  | _, [] => ∅
  | carmap, fcd :: rest =>
      touchedByAdd carmap fcd ∪ touchedSegments (carAfterAdd carmap fcd) rest

section AlistLemmas

variable {κ α : Type} [DecidableEq κ]

theorem alistGet_set_self (m : List (κ × α)) (k : κ) (v : α) :
    alistGet (alistSet m k v) k = some v := by
  induction m with
  | nil => simp [alistSet, alistGet]
  | cons e rest ih =>
      by_cases h : e.1 = k
      · simp [alistSet, alistGet, h]
      · simp only [alistSet, alistGet]
        rw [if_neg h, alistGet, if_neg h]
        exact ih

theorem alistGet_set_ne (m : List (κ × α)) (k k' : κ) (v : α) (h : k' ≠ k) :
    alistGet (alistSet m k v) k' = alistGet m k' := by
  induction m with
  | nil =>
      simp only [alistSet, alistGet]
      rw [if_neg (fun hh => h hh.symm)]
  | cons e rest ih =>
      by_cases hk : e.1 = k
      · simp only [alistSet]
        rw [if_pos hk]
        simp only [alistGet]
        rw [if_neg (fun hh => h hh.symm), if_neg (hk ▸ (fun hh => h hh.symm))]
      · simp only [alistSet]
        rw [if_neg hk]
        simp only [alistGet]
        by_cases hk' : e.1 = k'
        · rw [if_pos hk', if_pos hk']
        · rw [if_neg hk', if_neg hk']
          exact ih

theorem alistSet_get_eq (m : List (κ × α)) (k : κ) (v : α)
    (h : alistGet m k = some v) : alistSet m k v = m := by
  induction m with
  | nil => simp [alistGet] at h
  | cons e rest ih =>
      by_cases hk : e.1 = k
      · simp only [alistGet] at h
        rw [if_pos hk] at h
        obtain ⟨he, rfl⟩ : e = (k, v) := by
          cases e
          simp_all
        simp [alistSet]
      · simp only [alistGet] at h
        rw [if_neg hk] at h
        simp only [alistSet]
        rw [if_neg hk, ih h]

theorem alistGet_append (m m' : List (κ × α)) (k : κ) :
    alistGet (m ++ m') k =
      match alistGet m k with
      | some v => some v
      | none => alistGet m' k := by
  induction m with
  | nil => simp [alistGet]
  | cons e rest ih =>
      simp only [List.cons_append, alistGet]
      by_cases hk : e.1 = k
      · rw [if_pos hk, if_pos hk]
      · rw [if_neg hk, if_neg hk]
        exact ih

theorem alistGet_map_value {β : Type} (m : List (κ × α)) (g : α → β) (k : κ) :
    alistGet (m.map (fun p => (p.1, g p.2))) k = (alistGet m k).map g := by
  induction m with
  | nil => simp [alistGet]
  | cons e rest ih =>
      by_cases hk : e.1 = k
      · simp [alistGet, hk]
      · simp only [List.map_cons, alistGet]
        rw [if_neg hk, if_neg hk]
        exact ih

theorem alistGet_eq_some_of_mem_nodup (m : List (κ × α)) (k : κ) (v : α)
    (hnd : (m.map Prod.fst).Nodup) (hmem : (k, v) ∈ m) :
    alistGet m k = some v := by
  induction m with
  | nil => simp at hmem
  | cons e rest ih =>
      simp only [List.map_cons, List.nodup_cons] at hnd
      rcases List.mem_cons.mp hmem with h | h
      · subst h
        simp [alistGet]
      · have hk : e.1 ≠ k := by
          intro hk
          exact hnd.1 (hk ▸ (List.mem_map.mpr ⟨(k, v), h, rfl⟩))
        simp only [alistGet]
        rw [if_neg hk]
        exact ih hnd.2 h

theorem mem_of_alistGet_eq_some (m : List (κ × α)) (k : κ) (v : α)
    (h : alistGet m k = some v) : (k, v) ∈ m := by
  induction m with
  | nil => simp [alistGet] at h
  | cons e rest ih =>
      by_cases hk : e.1 = k
      · simp only [alistGet] at h
        rw [if_pos hk] at h
        cases e
        simp_all
      · simp only [alistGet] at h
        rw [if_neg hk] at h
        exact List.mem_cons_of_mem _ (ih h)

end AlistLemmas

section AlistExtra

variable {κ α : Type} [DecidableEq κ]

theorem alistSet_ne_nil (m : List (κ × α)) (k : κ) (v : α) :
    alistSet m k v ≠ [] := by
  cases m with
  | nil => simp [alistSet]
  | cons e rest =>
      simp only [alistSet]
      split <;> simp

theorem alistSet_of_get_none (m : List (κ × α)) (k : κ) (v : α)
    (h : alistGet m k = none) : alistSet m k v = m ++ [(k, v)] := by
  induction m with
  | nil => simp [alistSet]
  | cons e rest ih =>
      by_cases hk : e.1 = k
      · simp only [alistGet] at h
        rw [if_pos hk] at h
        exact absurd h (by simp)
      · simp only [alistGet] at h
        rw [if_neg hk] at h
        simp only [alistSet]
        rw [if_neg hk, ih h]
        simp

end AlistExtra

section AddLemmas

theorem add_fcd_by_segment (gv : GlobalView) (fcd : FCDRecord) :
    (gv.add fcd).fcd_by_segment =
      alistSet gv.fcd_by_segment fcd.segment_id (gv.obs fcd.segment_id ++ [fcd]) := by
  cases hh : alistGet gv.car_to_segment fcd.vehicle_id with
  | none => simp only [GlobalView.add, hh]
  | some old =>
      simp only [GlobalView.add, hh]
      by_cases hne : old ≠ fcd.segment_id
      · rw [if_pos hne]
      · rw [if_neg hne]

theorem add_car_to_segment (gv : GlobalView) (fcd : FCDRecord) :
    (gv.add fcd).car_to_segment = carAfterAdd gv.car_to_segment fcd := by
  cases hh : alistGet gv.car_to_segment fcd.vehicle_id with
  | none => simp only [GlobalView.add, carAfterAdd, hh]
  | some old =>
      simp only [GlobalView.add, carAfterAdd, hh]
      by_cases hne : old ≠ fcd.segment_id
      · rw [if_pos hne, if_pos hne]
      · rw [if_neg hne, if_neg hne]

theorem add_modified_segments (gv : GlobalView) (fcd : FCDRecord) :
    (gv.add fcd).modified_segments =
      gv.modified_segments ∪ touchedByAdd gv.car_to_segment fcd := by
  cases hh : alistGet gv.car_to_segment fcd.vehicle_id with
  | none =>
      simp only [GlobalView.add, touchedByAdd, hh]
      ext x
      simp
      tauto
  | some old =>
      simp only [GlobalView.add, touchedByAdd, hh]
      by_cases hne : old ≠ fcd.segment_id
      · rw [if_pos hne, if_pos hne]
        ext x
        simp
        tauto
      · rw [if_neg hne, if_neg hne]
        ext x
        simp
        tauto

theorem add_obs_self (gv : GlobalView) (fcd : FCDRecord) :
    (gv.add fcd).obs fcd.segment_id = gv.obs fcd.segment_id ++ [fcd] := by
  unfold GlobalView.obs
  rw [add_fcd_by_segment, alistGet_set_self]
  rfl

theorem add_obs_ne (gv : GlobalView) (fcd : FCDRecord) (sid : ℕ)
    (h : sid ≠ fcd.segment_id) : (gv.add fcd).obs sid = gv.obs sid := by
  unfold GlobalView.obs
  rw [add_fcd_by_segment, alistGet_set_ne _ _ _ _ h]

theorem carAfterAdd_get_self (cm : List (ℤ × ℕ)) (fcd : FCDRecord) :
    alistGet (carAfterAdd cm fcd) fcd.vehicle_id = some fcd.segment_id := by
  cases hh : alistGet cm fcd.vehicle_id with
  | none =>
      simp only [carAfterAdd, hh]
      exact alistGet_set_self _ _ _
  | some old =>
      simp only [carAfterAdd, hh]
      by_cases hne : old ≠ fcd.segment_id
      · rw [if_pos hne]
        exact alistGet_set_self _ _ _
      · rw [if_neg hne]
        push_neg at hne
        rw [hh, hne]

theorem carAfterAdd_get_ne (cm : List (ℤ × ℕ)) (fcd : FCDRecord) (v : ℤ)
    (h : v ≠ fcd.vehicle_id) :
    alistGet (carAfterAdd cm fcd) v = alistGet cm v := by
  cases hh : alistGet cm fcd.vehicle_id with
  | none =>
      simp only [carAfterAdd, hh]
      exact alistGet_set_ne _ _ _ _ h
  | some old =>
      simp only [carAfterAdd, hh]
      by_cases hne : old ≠ fcd.segment_id
      · rw [if_pos hne]
        exact alistGet_set_ne _ _ _ _ h
      · rw [if_neg hne]

theorem addAll_modified_segments (fcds : List FCDRecord) : ∀ gv : GlobalView,
    (gv.addAll fcds).modified_segments =
      gv.modified_segments ∪ touchedSegments gv.car_to_segment fcds := by
  induction fcds with
  | nil => intro gv; simp [GlobalView.addAll, touchedSegments]
  | cons fcd rest ih =>
      intro gv
      have h1 : gv.addAll (fcd :: rest) = (gv.add fcd).addAll rest := rfl
      rw [h1, ih (gv.add fcd), add_modified_segments, add_car_to_segment]
      rw [touchedSegments, Finset.union_assoc]

end AddLemmas

section DropOldLemmas

theorem filter_eq_self_of_length_eq {α : Type} (l : List α) (p : α → Bool)
    (h : (l.filter p).length = l.length) : l.filter p = l :=
  List.Sublist.eq_of_length (List.filter_sublist l) h

theorem drop_old_get (gv : GlobalView) (t : ℤ) (sid : ℕ) :
    alistGet (gv.drop_old t).fcd_by_segment sid =
      (alistGet gv.fcd_by_segment sid).map (fun l => l.filter (keepRecent t)) := by
  unfold GlobalView.drop_old
  simp only []
  rw [show (gv.fcd_by_segment.map (fun p =>
        if (p.2.filter (keepRecent t)).length ≠ p.2.length then
          (p.1, p.2.filter (keepRecent t))
        else p)) =
      gv.fcd_by_segment.map (fun p => (p.1, p.2.filter (keepRecent t))) from ?_]
  · exact alistGet_map_value _ _ _
  · apply List.map_congr_left
    intro p _
    by_cases hc : (p.2.filter (keepRecent t)).length ≠ p.2.length
    · rw [if_pos hc]
    · rw [if_neg hc]
      push_neg at hc
      rw [filter_eq_self_of_length_eq p.2 (keepRecent t) hc]

theorem drop_old_obs (gv : GlobalView) (t : ℤ) (sid : ℕ) :
    (gv.drop_old t).obs sid = (gv.obs sid).filter (keepRecent t) := by
  unfold GlobalView.obs
  rw [drop_old_get]
  cases alistGet gv.fcd_by_segment sid <;> simp

theorem drop_old_modified_iff (gv : GlobalView) (t : ℤ) (sid : ℕ)
    (hnd : (gv.fcd_by_segment.map Prod.fst).Nodup) :
    sid ∈ (gv.drop_old t).modified_segments ↔
      sid ∈ gv.modified_segments ∨
      ((gv.obs sid).filter (keepRecent t)).length ≠ (gv.obs sid).length := by
  unfold GlobalView.drop_old
  simp only [Finset.mem_union, List.mem_toFinset, List.mem_map, List.mem_filter]
  constructor
  · rintro (h | ⟨p, ⟨hp, hc⟩, rfl⟩)
    · exact Or.inl h
    · right
      have : alistGet gv.fcd_by_segment p.1 = some p.2 :=
        alistGet_eq_some_of_mem_nodup _ _ _ hnd (by cases p; exact hp)
      unfold GlobalView.obs
      rw [this]
      simpa using hc
  · rintro (h | hc)
    · exact Or.inl h
    · right
      unfold GlobalView.obs at hc
      cases hg : alistGet gv.fcd_by_segment sid with
      | none => rw [hg] at hc; simp at hc
      | some l =>
          rw [hg] at hc
          simp only [Option.getD_some] at hc
          exact ⟨(sid, l), ⟨mem_of_alistGet_eq_some _ _ _ hg, by simpa using hc⟩, rfl⟩

end DropOldLemmas

section RunLemmas

theorem run_state_obs (gv : GlobalView) (sid sid2 : ℕ) :
    ((gv.get_segment_speed_run sid).2).obs sid2 = gv.obs sid2 := by
  unfold GlobalView.get_segment_speed_run GlobalView.obs
  cases hg : alistGet gv.fcd_by_segment sid with
  | some l =>
      simp only [hg, Option.getD_some]
      rw [alistSet_get_eq _ _ _ hg]
  | none =>
      simp only [hg, Option.getD_none]
      rw [alistSet_of_get_none _ _ _ hg, alistGet_append]
      cases hg2 : alistGet gv.fcd_by_segment sid2 with
      | some l2 => rfl
      | none =>
          by_cases hs : sid = sid2
          · subst hs
            simp [alistGet]
          · simp [alistGet, hs]

end RunLemmas

section SpeedLemmas

theorem insertByDatetime_ne_nil (fcd : FCDRecord) (l : List FCDRecord) :
    insertByDatetime fcd l ≠ [] := by
  cases l with
  | nil => simp [insertByDatetime]
  | cons y ys =>
      simp only [insertByDatetime]
      split <;> simp

theorem sortByDatetime_eq_nil_iff (l : List FCDRecord) :
    sortByDatetime l = [] ↔ l = [] := by
  cases l with
  | nil => simp [sortByDatetime]
  | cons x xs =>
      simp only [sortByDatetime, List.foldr_cons]
      constructor
      · intro h
        exact absurd h (insertByDatetime_ne_nil _ _)
      · intro h
        exact absurd h (by simp)

theorem dedup_foldl_ne_nil (l : List FCDRecord) :
    ∀ acc : List (ℤ × ℚ), acc ≠ [] →
      l.foldl (fun acc fcd => alistSet acc fcd.vehicle_id fcd.speed) acc ≠ [] := by
  induction l with
  | nil => intro acc h; simpa using h
  | cons x xs ih =>
      intro acc _
      exact ih _ (alistSet_ne_nil _ _ _)

theorem dedupLastWins_ne_nil (l : List FCDRecord) (h : l ≠ []) :
    dedupLastWins l ≠ [] := by
  cases l with
  | nil => exact absurd rfl h
  | cons x xs =>
      unfold dedupLastWins
      rw [List.foldl_cons]
      exact dedup_foldl_ne_nil _ _ (alistSet_ne_nil _ _ _)

theorem get_segment_speed_eq_none_iff (gv : GlobalView) (sid : ℕ) :
    gv.get_segment_speed sid = none ↔ gv.obs sid = [] := by
  unfold GlobalView.get_segment_speed
  simp only []
  constructor
  · intro h
    by_contra hne
    have h1 : sortByDatetime (gv.obs sid) ≠ [] :=
      fun hh => hne ((sortByDatetime_eq_nil_iff _).mp hh)
    have h2 : dedupLastWins (sortByDatetime (gv.obs sid)) ≠ [] :=
      dedupLastWins_ne_nil _ h1
    have h3 : ((dedupLastWins (sortByDatetime (gv.obs sid))).map Prod.snd).length ≠ 0 := by
      simpa [List.length_eq_zero] using h2
    rw [if_neg h3] at h
    exact absurd h (by simp)
  · intro h
    rw [h]
    simp [sortByDatetime, dedupLastWins]

end SpeedLemmas

section LoadAheadLemmas

/-- The record filter that `vehiclesAhead` effectively applies for one
vehicle id: same vehicle, and qualifying. -/
def vaFilter (datetime tol : ℤ) (vehicle_id : ℤ) (vehicle_offset_m : ℚ)
    (v : ℤ) (fcd : FCDRecord) : Bool :=
  decide (fcd.vehicle_id = v ∧ qualifies datetime tol vehicle_id vehicle_offset_m fcd)

theorem vehiclesAhead_foldl_get (VC : VehicleClasses) (dt tol : ℤ) (vid : ℤ)
    (off : ℚ) (l : List FCDRecord) : ∀ (acc : List (ℤ × VehicleClass)) (v : ℤ),
    alistGet (l.foldl (vaStep VC dt tol vid off) acc) v =
      match alistGet acc v with
      | some c => some c
      | none =>
          ((l.filter (vaFilter dt tol vid off v)).head?).map
            (fun fcd => VC.lookup fcd.vehicle_type) := by
  induction l with
  | nil =>
      intro acc v
      cases h : alistGet acc v <;> simp [h]
  | cons fcd rest ih =>
      intro acc v
      rw [List.foldl_cons, ih]
      by_cases hv : fcd.vehicle_id = v
      · by_cases hq : qualifies dt tol vid off fcd
        · have hfeq : (fcd :: rest).filter (vaFilter dt tol vid off v) =
              fcd :: rest.filter (vaFilter dt tol vid off v) := by
            simp [List.filter_cons, vaFilter, hv, hq]
          rw [hfeq]
          by_cases hs : (alistGet acc fcd.vehicle_id).isSome
          · have hstep : vaStep VC dt tol vid off acc fcd = acc := by
              unfold vaStep; rw [if_pos hq, if_pos hs]
            rw [hstep]
            obtain ⟨c, hc⟩ := Option.isSome_iff_exists.mp (hv ▸ hs)
            rw [hc]
          · have hstep : vaStep VC dt tol vid off acc fcd =
                acc ++ [(fcd.vehicle_id, VC.lookup fcd.vehicle_type)] := by
              unfold vaStep; rw [if_pos hq, if_neg hs]
            rw [hstep, alistGet_append]
            have hacc : alistGet acc v = none := by
              rw [← hv]
              exact Option.not_isSome_iff_eq_none.mp hs
            rw [hacc]
            have hone : alistGet [(fcd.vehicle_id, VC.lookup fcd.vehicle_type)] v =
                some (VC.lookup fcd.vehicle_type) := by
              simp [alistGet, hv]
            rw [hone]
            simp
        · have hstep : vaStep VC dt tol vid off acc fcd = acc := by
            unfold vaStep; rw [if_neg hq]
          have hfeq : (fcd :: rest).filter (vaFilter dt tol vid off v) =
              rest.filter (vaFilter dt tol vid off v) := by
            simp [List.filter_cons, vaFilter, hq]
          rw [hstep, hfeq]
      · have hfeq : (fcd :: rest).filter (vaFilter dt tol vid off v) =
            rest.filter (vaFilter dt tol vid off v) := by
          simp [List.filter_cons, vaFilter, hv]
        rw [hfeq]
        by_cases hq : qualifies dt tol vid off fcd
        · by_cases hs : (alistGet acc fcd.vehicle_id).isSome
          · have hstep : vaStep VC dt tol vid off acc fcd = acc := by
              unfold vaStep; rw [if_pos hq, if_pos hs]
            rw [hstep]
          · have hstep : vaStep VC dt tol vid off acc fcd =
                acc ++ [(fcd.vehicle_id, VC.lookup fcd.vehicle_type)] := by
              unfold vaStep; rw [if_pos hq, if_neg hs]
            rw [hstep, alistGet_append]
            have hone : alistGet [(fcd.vehicle_id, VC.lookup fcd.vehicle_type)] v = none := by
              simp [alistGet, hv]
            cases hacc : alistGet acc v
            · rw [hone]
            · rfl
        · have hstep : vaStep VC dt tol vid off acc fcd = acc := by
            unfold vaStep; rw [if_neg hq]
          rw [hstep]

theorem vehiclesAhead_get (VC : VehicleClasses) (dt tol : ℤ) (vid : ℤ) (off : ℚ)
    (l : List FCDRecord) (v : ℤ) :
    alistGet (vehiclesAhead VC dt tol vid off l) v =
      ((l.filter (vaFilter dt tol vid off v)).head?).map
        (fun fcd => VC.lookup fcd.vehicle_type) := by
  rw [vehiclesAhead, vehiclesAhead_foldl_get]
  rfl

theorem isSome_option_map {α β : Type} (f : α → β) (o : Option α) :
    (o.map f).isSome = o.isSome := by
  cases o <;> rfl

theorem vehiclesAhead_isSome_iff (VC : VehicleClasses) (dt tol : ℤ) (vid : ℤ)
    (off : ℚ) (l : List FCDRecord) (v : ℤ) :
    (alistGet (vehiclesAhead VC dt tol vid off l) v).isSome ↔
      ∃ fcd ∈ l, fcd.vehicle_id = v ∧ qualifies dt tol vid off fcd := by
  rw [vehiclesAhead_get, isSome_option_map]
  cases hh : l.filter (vaFilter dt tol vid off v) with
  | nil =>
      simp only [List.head?_nil, Option.isSome_none]
      constructor
      · intro h
        simp at h
      · rintro ⟨fcd, hmem, hveq, hq⟩
        have hmf : fcd ∈ l.filter (vaFilter dt tol vid off v) :=
          List.mem_filter.mpr ⟨hmem, decide_eq_true ⟨hveq, hq⟩⟩
        rw [hh] at hmf
        simp at hmf
  | cons a as =>
      simp only [List.head?_cons, Option.isSome_some]
      constructor
      · intro _
        have hma : a ∈ l.filter (vaFilter dt tol vid off v) := by
          rw [hh]
          exact List.mem_cons_self a as
        have hmem := List.mem_filter.mp hma
        have hq := of_decide_eq_true hmem.2
        exact ⟨a, hmem.1, hq.1, hq.2⟩
      · intro _
        trivial

theorem vaStep_entries (VC : VehicleClasses) (dt tol : ℤ) (vid : ℤ) (off : ℚ)
    (acc : List (ℤ × VehicleClass)) (fcd : FCDRecord)
    (h : ∀ e ∈ acc, ∃ s, e.2 = VC.lookup s) :
    ∀ e ∈ vaStep VC dt tol vid off acc fcd, ∃ s, e.2 = VC.lookup s := by
  intro e he
  unfold vaStep at he
  split_ifs at he
  · exact h e he
  · rcases List.mem_append.mp he with hm | hm
    · exact h e hm
    · simp only [List.mem_singleton] at hm
      subst hm
      exact ⟨fcd.vehicle_type, rfl⟩
  · exact h e he

theorem vehiclesAhead_foldl_entries (VC : VehicleClasses) (dt tol : ℤ) (vid : ℤ)
    (off : ℚ) (l : List FCDRecord) : ∀ acc : List (ℤ × VehicleClass),
    (∀ e ∈ acc, ∃ s, e.2 = VC.lookup s) →
    ∀ e ∈ l.foldl (vaStep VC dt tol vid off) acc, ∃ s, e.2 = VC.lookup s := by
  induction l with
  | nil => intro acc h; exact h
  | cons fcd rest ih =>
      intro acc h
      rw [List.foldl_cons]
      exact ih _ (vaStep_entries VC dt tol vid off acc fcd h)

theorem vehiclesAhead_entries (VC : VehicleClasses) (dt tol : ℤ) (vid : ℤ)
    (off : ℚ) (l : List FCDRecord) :
    ∀ e ∈ vehiclesAhead VC dt tol vid off l, ∃ s, e.2 = VC.lookup s :=
  vehiclesAhead_foldl_entries VC dt tol vid off l [] (by simp)

theorem load_ahead_pcu_nonneg (VC : VehicleClasses) (gv : GlobalView) (dt : ℤ)
    (sid : ℕ) (tol : Option ℤ) (vid : ℤ) (off : ℚ)
    (hp : ∀ s, 0 ≤ (VC.lookup s).pcu) :
    0 ≤ (gv.load_ahead VC dt sid tol vid off).1 := by
  unfold GlobalView.load_ahead
  apply List.sum_nonneg
  intro x hx
  obtain ⟨e, he, rfl⟩ := List.mem_map.mp hx
  obtain ⟨s, hs⟩ := vehiclesAhead_entries VC dt (tol.getD 0) vid off _ e he
  rw [hs]
  exact hp s

end LoadAheadLemmas

section LosLemmas

theorem mile_pos : (0 : ℚ) < mile := by norm_num [mile]

theorem densityPerMile_nonneg (seg : Segment) (off pcu : ℚ)
    (hpcu : 0 ≤ pcu) :
    0 ≤ densityPerMile seg off pcu := by
  simp only [densityPerMile]
  split_ifs with h
  · exact div_nonneg (mul_nonneg hpcu mile_pos.le) (by norm_num)
  · push_neg at h
    apply div_nonneg (mul_nonneg hpcu mile_pos.le)
    apply mul_nonneg (by linarith)
    exact_mod_cast Nat.zero_le seg.lanes

theorem lookupLoop_ranges_bounds (d : ℚ) (hd : 0 ≤ d) (x : ℚ)
    (h : lookupLoop rangesTable d = LoS.val x) : 0 ≤ x ∧ x < 1 := by
  simp only [rangesTable, lookupLoop] at h
  by_cases h1 : d < 12
  · rw [if_pos h1, LoS.val.injEq] at h
    subst h
    constructor <;> [linarith; linarith]
  · rw [if_neg h1] at h
    push_neg at h1
    by_cases h2 : d < 20
    · rw [if_pos h2, LoS.val.injEq] at h
      subst h
      constructor <;> [linarith; linarith]
    · rw [if_neg h2] at h
      push_neg at h2
      by_cases h3 : d < 30
      · rw [if_pos h3, LoS.val.injEq] at h
        subst h
        constructor <;> [linarith; linarith]
      · rw [if_neg h3] at h
        push_neg at h3
        by_cases h4 : d < 42
        · rw [if_pos h4, LoS.val.injEq] at h
          subst h
          constructor <;> [linarith; linarith]
        · rw [if_neg h4] at h
          push_neg at h4
          by_cases h5 : d < 67
          · rw [if_pos h5, LoS.val.injEq] at h
            subst h
            constructor <;> [linarith; linarith]
          · rw [if_neg h5] at h
            exact absurd h (by simp)

theorem losFromDensity_bounds (d : ℚ) (hd : 0 ≤ d) (y : ℚ)
    (h : losFromDensity d = LoS.val y) : 0 < y ∧ y ≤ 1 := by
  unfold losFromDensity at h
  cases hh : lookupLoop rangesTable d with
  | inf => rw [hh] at h; exact absurd h (by simp)
  | val x =>
      rw [hh] at h
      rw [LoS.val.injEq] at h
      obtain ⟨hx0, hx1⟩ := lookupLoop_ranges_bounds d hd x hh
      constructor <;> linarith [h.symm]

end LosLemmas

section LosBranchLemmas

theorem los_branch_pos (VC : VehicleClasses) (gv : GlobalView) (dt : ℤ)
    (seg : Segment) (vid : ℤ) (off : ℚ) (tol : Option ℤ) (limit : Bool)
    (h : limit = true ∧ off = 0 ∧ 10 ≤ seg.length ∧
      seg.length - off < (gv.load_ahead VC dt seg.id tol vid off).2.1) :
    gv.level_of_service_in_front_of_vehicle VC dt seg vid off tol limit = LoS.inf := by
  simp only [GlobalView.level_of_service_in_front_of_vehicle]
  rw [if_pos h]

theorem los_branch_neg (VC : VehicleClasses) (gv : GlobalView) (dt : ℤ)
    (seg : Segment) (vid : ℤ) (off : ℚ) (tol : Option ℤ) (limit : Bool)
    (h : ¬(limit = true ∧ off = 0 ∧ 10 ≤ seg.length ∧
      seg.length - off < (gv.load_ahead VC dt seg.id tol vid off).2.1)) :
    gv.level_of_service_in_front_of_vehicle VC dt seg vid off tol limit =
      losFromDensity
        (densityPerMile seg off (gv.load_ahead VC dt seg.id tol vid off).1) := by
  simp only [GlobalView.level_of_service_in_front_of_vehicle]
  rw [if_neg h]

end LosBranchLemmas

section Fixtures

/-- A sample "car" class (pcu 1, length 5 m, gap 2 m). -/
def carClassEx : VehicleClass :=
  { pcu := 1, length_m := 5, standstill_gap_m := 2, name := "car" }

/-- A sample "truck" class (pcu 2, length 10 m, gap 3 m). -/
def truckClassEx : VehicleClass :=
  { pcu := 2, length_m := 10, standstill_gap_m := 3, name := "truck" }

/-- A sample class table with "truck" and the "car" fallback. -/
def VCex : VehicleClasses :=
  { get := fun t => if t = "truck" then some truckClassEx else none,
    car := carClassEx }

theorem VCex_lookup_car : VCex.lookup "car" = carClassEx := by
  unfold VehicleClasses.lookup VCex
  simp only []
  rw [if_neg (by decide)]
  rfl

/-- Sample record: vehicle 1 on segment 5 at time 1, speed 10. -/
def rec1 : FCDRecord :=
  { vehicle_id := 1, vehicle_type := "car", segment_id := 5,
    start_offset := 3, datetime := 1, speed := 10 }

/-- Sample record: vehicle 1 on segment 5 at time 2, speed 20. -/
def rec2 : FCDRecord :=
  { vehicle_id := 1, vehicle_type := "car", segment_id := 5,
    start_offset := 4, datetime := 2, speed := 20 }

/-- A sample state: segment 5 holds the two observations of vehicle 1. -/
def gv1 : GlobalView :=
  { fcd_by_segment := [(5, [rec1, rec2])],
    car_to_segment := [(1, 5)],
    modified_segments := {5} }

/-- A 10 m single-lane segment for the jam scenario. -/
def segJam : Segment := { id := 7, length := 10, lanes := 1 }

/-- Jam scenario record: vehicle 1 ahead on segment 7. -/
def recJ1 : FCDRecord :=
  { vehicle_id := 1, vehicle_type := "car", segment_id := 7,
    start_offset := 1, datetime := 0, speed := 5 }

/-- Jam scenario record: vehicle 2 ahead on segment 7. -/
def recJ2 : FCDRecord :=
  { vehicle_id := 2, vehicle_type := "car", segment_id := 7,
    start_offset := 2, datetime := 0, speed := 5 }

/-- Jam scenario state: two cars of 7 m occupied length each on a 10 m
segment. -/
def gvJam : GlobalView :=
  { fcd_by_segment := [(7, [recJ1, recJ2])],
    car_to_segment := [(1, 7), (2, 7)],
    modified_segments := {7} }

/-- A 500 m two-lane segment. -/
def segWide : Segment := { id := 0, length := 500, lanes := 2 }

/-- A vehicle observed at `start_offset = 0` (the very start of segment 9),
inside the query window. -/
def recZ : FCDRecord :=
  { vehicle_id := 3, vehicle_type := "car", segment_id := 9,
    start_offset := 0, datetime := 0, speed := 7 }

/-- A state whose segment 9 holds only the offset-zero observation. -/
def gvZ : GlobalView :=
  { fcd_by_segment := [(9, [recZ])],
    car_to_segment := [(3, 9)],
    modified_segments := ∅ }

end Fixtures

/-- C1: `get_segment_speed` returns "no data" (`none`) exactly when the
segment has no stored observations — never a numeric zero — and otherwise
the arithmetic mean of per-vehicle latest speeds: after the stable sort by
timestamp the last observation of each vehicle overwrites earlier ones, so
for observations `[(v,t1,10), (v,t2,20)]` with `t2 > t1` (in either storage
order) the result is the latest speed, and for two distinct vehicles it is
the mean of their speeds. -/
theorem c1_segment_speed_mean (gv : GlobalView) (sid : ℕ) :
    (gv.get_segment_speed sid = none ↔ gv.obs sid = []) ∧
    (∀ a b : FCDRecord, a.vehicle_id = b.vehicle_id → a.datetime < b.datetime →
      gv.obs sid = [a, b] → gv.get_segment_speed sid = some b.speed) ∧
    (∀ a b : FCDRecord, a.vehicle_id = b.vehicle_id → a.datetime < b.datetime →
      gv.obs sid = [b, a] → gv.get_segment_speed sid = some b.speed) ∧
    (∀ a b : FCDRecord, a.vehicle_id ≠ b.vehicle_id → a.datetime ≤ b.datetime →
      gv.obs sid = [a, b] →
      gv.get_segment_speed sid = some ((a.speed + b.speed) / 2)) := by
  refine ⟨get_segment_speed_eq_none_iff gv sid, ?_, ?_, ?_⟩
  · intro a b hv ht hobs
    unfold GlobalView.get_segment_speed
    rw [hobs]
    have hnlt : ¬ b.datetime < a.datetime := not_lt.mpr ht.le
    simp [sortByDatetime, insertByDatetime, hnlt, dedupLastWins, alistSet, hv]
  · intro a b hv ht hobs
    unfold GlobalView.get_segment_speed
    rw [hobs]
    simp [sortByDatetime, insertByDatetime, ht, dedupLastWins, alistSet, hv]
  · intro a b hv ht hobs
    unfold GlobalView.get_segment_speed
    rw [hobs]
    have hnlt : ¬ b.datetime < a.datetime := not_lt.mpr ht
    simp [sortByDatetime, insertByDatetime, hnlt, dedupLastWins, alistSet, hv]

/-- C1 witness: on a segment holding `[(v1,t1,10), (v1,t2,20)]` with
`t2 > t1`, the aggregated speed is 20. -/
theorem c1_wit_latest_speed : gv1.get_segment_speed 5 = some rec2.speed :=
  (c1_segment_speed_mean gv1 5).2.1 rec1 rec2 rfl (by decide) rfl

/-- C2: `take_segment_speeds` returns the mapping whose key set is exactly
the dirty set, each key mapped to its current `get_segment_speed` value
(computed on the pre-state, before the dirty set is cleared); the cleared
state keeps the index and vehicle map intact; a second drain with no
intervening mutation is empty; and after any `add` sequence from a drained
state the keys are exactly the touched-or-vacated segments. -/
theorem c2_take_drains (gv : GlobalView) :
    (∀ sid, sid ∈ gv.modified_segments →
      (gv.take_segment_speeds).1 sid = some (gv.get_segment_speed sid)) ∧
    (∀ sid, sid ∉ gv.modified_segments → (gv.take_segment_speeds).1 sid = none) ∧
    ((gv.take_segment_speeds).2.modified_segments = ∅) ∧
    ((gv.take_segment_speeds).2.fcd_by_segment = gv.fcd_by_segment) ∧
    ((gv.take_segment_speeds).2.car_to_segment = gv.car_to_segment) ∧
    (∀ sid, ((gv.take_segment_speeds).2.take_segment_speeds).1 sid = none) ∧
    (∀ fcds sid, gv.modified_segments = ∅ →
      (((gv.addAll fcds).take_segment_speeds).1 sid ≠ none ↔
        sid ∈ touchedSegments gv.car_to_segment fcds)) := by
  refine ⟨?_, ?_, rfl, rfl, rfl, ?_, ?_⟩
  · intro sid h
    simp [GlobalView.take_segment_speeds, h]
  · intro sid h
    simp [GlobalView.take_segment_speeds, h]
  · intro sid
    simp [GlobalView.take_segment_speeds]
  · intro fcds sid h
    have hmod := addAll_modified_segments fcds gv
    rw [h, Finset.empty_union] at hmod
    by_cases hm : sid ∈ touchedSegments gv.car_to_segment fcds
    · simp [GlobalView.take_segment_speeds, hmod, hm]
    · simp [GlobalView.take_segment_speeds, hmod, hm]

/-- C2 witness: on the sample state, draining returns the speed of the one
dirty segment, and a second drain is empty. -/
theorem c2_wit_drain :
    (gv1.take_segment_speeds).1 5 = some (gv1.get_segment_speed 5) ∧
    ((gv1.take_segment_speeds).2.take_segment_speeds).1 5 = none :=
  ⟨(c2_take_drains gv1).1 5 (by decide), (c2_take_drains gv1).2.2.2.2.2.1 5⟩

/-- C3: `add` appends the record to its segment's sequence and marks that
segment dirty; a differing previous segment of the vehicle is marked dirty
too and the vehicle's mapping moves to the new segment; a new vehicle is
simply recorded; no other segment's sequence and no other vehicle's mapping
changes, and the dirty set grows by exactly the touched segments. -/
theorem c3_add_contract (gv : GlobalView) (fcd : FCDRecord) :
    ((gv.add fcd).obs fcd.segment_id = gv.obs fcd.segment_id ++ [fcd]) ∧
    (∀ sid, sid ≠ fcd.segment_id → (gv.add fcd).obs sid = gv.obs sid) ∧
    (fcd.segment_id ∈ (gv.add fcd).modified_segments) ∧
    (alistGet (gv.add fcd).car_to_segment fcd.vehicle_id = some fcd.segment_id) ∧
    (∀ v, v ≠ fcd.vehicle_id →
      alistGet (gv.add fcd).car_to_segment v = alistGet gv.car_to_segment v) ∧
    (∀ sid, sid ∈ (gv.add fcd).modified_segments ↔
      sid ∈ gv.modified_segments ∨ sid = fcd.segment_id ∨
      (alistGet gv.car_to_segment fcd.vehicle_id = some sid ∧
        sid ≠ fcd.segment_id)) := by
  refine ⟨add_obs_self gv fcd, fun sid h => add_obs_ne gv fcd sid h, ?_, ?_, ?_, ?_⟩
  · rw [add_modified_segments]
    simp [touchedByAdd]
  · rw [add_car_to_segment]
    exact carAfterAdd_get_self _ _
  · intro v hv
    rw [add_car_to_segment]
    exact carAfterAdd_get_ne _ _ _ hv
  · intro sid
    rw [add_modified_segments]
    cases hh : alistGet gv.car_to_segment fcd.vehicle_id with
    | none =>
        simp only [touchedByAdd, hh, Finset.mem_union, Finset.mem_insert,
          Finset.not_mem_empty, or_false]
        constructor
        · rintro (h | h)
          · exact Or.inl h
          · exact Or.inr (Or.inl h)
        · rintro (h | h | ⟨h1, h2⟩)
          · exact Or.inl h
          · exact Or.inr h
          · exact absurd h1 (by simp)
    | some old =>
        simp only [touchedByAdd, hh]
        by_cases hne : old = fcd.segment_id
        · subst hne
          rw [if_neg (by simp)]
          simp only [Finset.mem_union, Finset.mem_insert, Finset.not_mem_empty,
            or_false, Option.some.injEq]
          constructor
          · rintro (h | h)
            · exact Or.inl h
            · exact Or.inr (Or.inl h)
          · rintro (h | h | ⟨h1, h2⟩)
            · exact Or.inl h
            · exact Or.inr h
            · exact absurd h1.symm h2
        · rw [if_pos (by simpa using hne)]
          simp only [Finset.mem_union, Finset.mem_insert, Finset.mem_singleton,
            Option.some.injEq]
          constructor
          · rintro (h | h | h)
            · exact Or.inl h
            · exact Or.inr (Or.inl h)
            · subst h
              exact Or.inr (Or.inr ⟨rfl, fun hc => hne hc⟩)
          · rintro (h | h | ⟨h1, h2⟩)
            · exact Or.inl h
            · exact Or.inr (Or.inl h)
            · exact Or.inr (Or.inr h1.symm)

/-- C3 witness: adding a record for a new vehicle 2 moving from segment 5
is recorded: here vehicle 1 moves from segment 5 to segment 6, so both
segments are dirty and the mapping moves. -/
theorem c3_wit_add :
    (gv1.add { vehicle_id := 1, vehicle_type := "car", segment_id := 6,
               start_offset := 0, datetime := 3, speed := 30 }).obs 5 = gv1.obs 5 :=
  (c3_add_contract gv1 _).2.1 5 (by decide)

/-- C8: `drop_old` keeps in every segment exactly the observations with
`datetime ≥ threshold` (a sublist, so survivor order is preserved), leaves
the vehicle map alone, and the dirty set afterwards holds a segment iff it
was dirty before or its observation count actually changed. -/
theorem c8_drop_old_retention (gv : GlobalView) (t : ℤ) (sid : ℕ)
    (hnd : (gv.fcd_by_segment.map Prod.fst).Nodup) :
    ((gv.drop_old t).obs sid = (gv.obs sid).filter (keepRecent t)) ∧
    ((gv.drop_old t).obs sid).Sublist (gv.obs sid) ∧
    ((gv.drop_old t).car_to_segment = gv.car_to_segment) ∧
    (∀ fcd ∈ gv.obs sid, fcd ∈ (gv.drop_old t).obs sid ↔ t ≤ fcd.datetime) ∧
    (sid ∈ (gv.drop_old t).modified_segments ↔
      sid ∈ gv.modified_segments ∨
      ((gv.obs sid).filter (keepRecent t)).length ≠ (gv.obs sid).length) := by
  refine ⟨drop_old_obs gv t sid, ?_, rfl, ?_, drop_old_modified_iff gv t sid hnd⟩
  · rw [drop_old_obs]
    exact List.filter_sublist _
  · intro fcd hmem
    rw [drop_old_obs]
    simp [List.mem_filter, keepRecent, hmem]

/-- C8 witness: dropping below threshold 2 on the sample state keeps only
the newer observation, and marks segment 5 (whose count changed). -/
theorem c8_wit_drop :
    (gv1.drop_old 2).obs 5 = (gv1.obs 5).filter (keepRecent 2) :=
  (c8_drop_old_retention gv1 2 5 (by decide)).1

/-- C9: `get_segment_speed` leaves the index observably unchanged: the
stateful form (which models the `defaultdict` key insertion) returns the
same value as the pure aggregation, and afterwards every segment's
observation sequence, the dirty set and the vehicle map read the same. -/
theorem c9_get_speed_no_mutation (gv : GlobalView) (sid : ℕ) :
    ((gv.get_segment_speed_run sid).1 = gv.get_segment_speed sid) ∧
    (∀ sid2, ((gv.get_segment_speed_run sid).2).obs sid2 = gv.obs sid2) ∧
    ((gv.get_segment_speed_run sid).2.modified_segments = gv.modified_segments) ∧
    ((gv.get_segment_speed_run sid).2.car_to_segment = gv.car_to_segment) :=
  ⟨rfl, fun sid2 => run_state_obs gv sid sid2, rfl, rfl⟩

/-- C4: the jam short-circuit fires exactly under its guards: with the
limit-vehicle-count mode on, a zero reference offset, a segment of at least
10 m and the occupied length ahead exceeding the available length, the
result is the infinite sentinel; with any guard off, or the occupied length
not exceeding, the density model answers instead. -/
theorem c4_jam_short_circuit (VC : VehicleClasses) (gv : GlobalView) (dt : ℤ)
    (seg : Segment) (vid : ℤ) (off : ℚ) (tol : Option ℤ) (limit : Bool) :
    (limit = true → off = 0 → 10 ≤ seg.length →
      seg.length - off < (gv.load_ahead VC dt seg.id tol vid off).2.1 →
      gv.level_of_service_in_front_of_vehicle VC dt seg vid off tol limit =
        LoS.inf) ∧
    (limit = false →
      gv.level_of_service_in_front_of_vehicle VC dt seg vid off tol limit =
        losFromDensity
          (densityPerMile seg off (gv.load_ahead VC dt seg.id tol vid off).1)) ∧
    (off ≠ 0 →
      gv.level_of_service_in_front_of_vehicle VC dt seg vid off tol limit =
        losFromDensity
          (densityPerMile seg off (gv.load_ahead VC dt seg.id tol vid off).1)) ∧
    (seg.length < 10 →
      gv.level_of_service_in_front_of_vehicle VC dt seg vid off tol limit =
        losFromDensity
          (densityPerMile seg off (gv.load_ahead VC dt seg.id tol vid off).1)) ∧
    ((gv.load_ahead VC dt seg.id tol vid off).2.1 ≤ seg.length - off →
      gv.level_of_service_in_front_of_vehicle VC dt seg vid off tol limit =
        losFromDensity
          (densityPerMile seg off (gv.load_ahead VC dt seg.id tol vid off).1)) := by
  refine ⟨?_, ?_, ?_, ?_, ?_⟩
  · intro h1 h2 h3 h4
    exact los_branch_pos VC gv dt seg vid off tol limit ⟨h1, h2, h3, h4⟩
  · intro h
    apply los_branch_neg
    rintro ⟨hc1, _, _, _⟩
    rw [h] at hc1
    exact Bool.false_ne_true hc1
  · intro h
    apply los_branch_neg
    rintro ⟨_, hc2, _, _⟩
    exact h hc2
  · intro h
    apply los_branch_neg
    rintro ⟨_, _, hc3, _⟩
    exact absurd hc3 (not_le.mpr h)
  · intro h
    apply los_branch_neg
    rintro ⟨_, _, _, hc4⟩
    exact absurd hc4 (not_lt.mpr h)

/-- C4 witness: two cars of 7 m occupied length each on a 10 m segment,
reference offset 0, limit mode on — occupied 14 m exceeds the available
10 m, so the answer is the infinite sentinel. -/
theorem c4_wit_jam :
    gvJam.level_of_service_in_front_of_vehicle VCex 0 segJam 99 0 none true =
      LoS.inf :=
  (c4_jam_short_circuit VCex gvJam 0 segJam 99 0 none true).1 rfl rfl
    (by norm_num [segJam])
    (by norm_num [segJam, GlobalView.load_ahead, vehiclesAhead, vaStep, qualifies,
      alistGet, gvJam, recJ1, recJ2, VCex_lookup_car, carClassEx])

/-- C5: the density bands are half-open: density exactly 12 veh/mi falls in
the second band and gives raw 0.2, reported 0.8; density at or past 67
matches no band and the infinite sentinel passes through the final
reversal unchanged. -/
theorem c5_band_boundaries :
    (lookupLoop rangesTable 12 = LoS.val 0.2) ∧
    (losFromDensity 12 = LoS.val 0.8) ∧
    (∀ d : ℚ, 67 ≤ d → losFromDensity d = LoS.inf) := by
  refine ⟨?_, ?_, ?_⟩
  · simp only [rangesTable, lookupLoop]
    norm_num
  · simp only [losFromDensity, rangesTable, lookupLoop]
    norm_num
  · intro d hd
    unfold losFromDensity
    have hlk : lookupLoop rangesTable d = LoS.inf := by
      simp only [rangesTable, lookupLoop]
      rw [if_neg (by linarith), if_neg (by linarith), if_neg (by linarith),
        if_neg (by linarith), if_neg (by linarith)]
    rw [hlk]

/-- C5 witness: density exactly 67 yields the infinite sentinel. -/
theorem c5_wit_infinite : losFromDensity 67 = LoS.inf :=
  c5_band_boundaries.2.2 67 (by norm_num)

/-- C6: in the density step, with `rest_length = segment.length - offset`:
strictly below 200 m the density uses the fixed 200 m window with no lane
division, otherwise it divides by `rest_length * lanes`; and with limit
mode off the reported score is exactly the density model applied to the
load's PCU total. -/
theorem c6_density_normalization (VC : VehicleClasses) (gv : GlobalView)
    (dt : ℤ) (seg : Segment) (vid : ℤ) (off : ℚ) (tol : Option ℤ) :
    (gv.level_of_service_in_front_of_vehicle VC dt seg vid off tol false =
      losFromDensity
        (densityPerMile seg off (gv.load_ahead VC dt seg.id tol vid off).1)) ∧
    (∀ pcu : ℚ, seg.length - off < 200 →
      densityPerMile seg off pcu = pcu * mile / 200) ∧
    (∀ pcu : ℚ, 200 ≤ seg.length - off →
      densityPerMile seg off pcu =
        pcu * mile / ((seg.length - off) * (seg.lanes : ℚ))) := by
  refine ⟨?_, ?_, ?_⟩
  · apply los_branch_neg
    rintro ⟨hc1, _, _, _⟩
    exact Bool.false_ne_true hc1
  · intro pcu h
    simp only [densityPerMile]
    rw [if_pos h]
  · intro pcu h
    simp only [densityPerMile]
    rw [if_neg (not_lt.mpr h)]

/-- C6 witness: a 10 m segment leaves less than 200 m, so the density uses
the fixed 200 m window. -/
theorem c6_wit_short_window :
    densityPerMile segJam 0 1 = 1 * mile / 200 :=
  (c6_density_normalization VCex gvJam 0 segJam 99 0 none).2.1 1
    (by norm_num [segJam])

/-- C7 counterexample: with no reference vehicle (id -1, offset 0), an
observation lying inside the time window but at `start_offset = 0` is
dropped by the strict `start_offset > 0` filter, so it contributes nothing
— the claim predicts a PCU total of 1 here, the code yields 0 and an empty
`vehicles_ahead`. -/
theorem c7_cex_offset_zero_excluded :
    ((0 : ℤ) - 0 ≤ recZ.datetime ∧ recZ.datetime ≤ 0 + 0) ∧
    recZ ∈ gvZ.obs 9 ∧ recZ.vehicle_id ≠ -1 ∧
    (VCex.lookup recZ.vehicle_type).pcu = 1 ∧
    (gvZ.load_ahead VCex 0 9 none (-1) 0).2.2 = [] ∧
    (gvZ.load_ahead VCex 0 9 none (-1) 0).1 = 0 := by
  refine ⟨by norm_num [recZ], ?_, by norm_num [recZ], ?_, ?_, ?_⟩
  · simp [gvZ, GlobalView.obs, alistGet]
  · rw [show recZ.vehicle_type = "car" from rfl, VCex_lookup_car]
    norm_num [carClassEx]
  · simp [GlobalView.load_ahead, vehiclesAhead, vaStep, qualifies, gvZ, recZ,
      alistGet]
  · simp [GlobalView.load_ahead, vehiclesAhead, vaStep, qualifies, gvZ, recZ,
      alistGet]

/-- C7 (amended): with no reference vehicle, an observation counts toward
the load-ahead totals iff its timestamp lies in the window, its vehicle id
differs from the sentinel -1 and its `start_offset` strictly exceeds the
reference offset 0 — not regardless of its offset — one contribution per
distinct vehicle, the first qualifying occurrence in storage order
winning. -/
theorem c7_load_ahead_window (VC : VehicleClasses) (gv : GlobalView) (dt : ℤ)
    (sid : ℕ) (v : ℤ) :
    ((alistGet (gv.load_ahead VC dt sid none (-1) 0).2.2 v).isSome ↔
      ∃ fcd ∈ gv.obs sid, fcd.vehicle_id = v ∧
        (dt - 0 ≤ fcd.datetime ∧ fcd.datetime ≤ dt + 0) ∧
        fcd.vehicle_id ≠ -1 ∧ 0 < fcd.start_offset) ∧
    (alistGet (gv.load_ahead VC dt sid none (-1) 0).2.2 v =
      ((gv.obs sid).filter (vaFilter dt 0 (-1) 0 v)).head?.map
        (fun fcd => VC.lookup fcd.vehicle_type)) := by
  have hva : (gv.load_ahead VC dt sid none (-1) 0).2.2 =
      vehiclesAhead VC dt 0 (-1) 0 (gv.obs sid) := rfl
  constructor
  · rw [hva, vehiclesAhead_isSome_iff]
    constructor
    · rintro ⟨fcd, hm, hv, hq⟩
      exact ⟨fcd, hm, hv, hq.1, hq.2.1, hq.2.2⟩
    · rintro ⟨fcd, hm, hv, hw, hne, hoff⟩
      exact ⟨fcd, hm, hv, hw, hne, hoff⟩
  · rw [hva, vehiclesAhead_get]

/-- C10: assuming all class PCU values are non-negative and at least one
lane, every finite score of `level_of_service_in_front_of_vehicle` lies in
(0, 1]: a finite 0.0 is never produced, at-capacity congestion being
reported only through the infinite sentinel. -/
theorem c10_score_range (VC : VehicleClasses) (gv : GlobalView) (dt : ℤ)
    (seg : Segment) (vid : ℤ) (off : ℚ) (tol : Option ℤ) (limit : Bool) (x : ℚ)
    (hp : ∀ s, 0 ≤ (VC.lookup s).pcu) (_hlanes : 1 ≤ seg.lanes)
    (hres : gv.level_of_service_in_front_of_vehicle VC dt seg vid off tol limit =
      LoS.val x) :
    0 < x ∧ x ≤ 1 := by
  by_cases hc : (limit = true ∧ off = 0 ∧ 10 ≤ seg.length ∧
      seg.length - off < (gv.load_ahead VC dt seg.id tol vid off).2.1)
  · rw [los_branch_pos VC gv dt seg vid off tol limit hc] at hres
    exact absurd hres (by simp)
  · rw [los_branch_neg VC gv dt seg vid off tol limit hc] at hres
    exact losFromDensity_bounds _
      (densityPerMile_nonneg seg off _
        (load_ahead_pcu_nonneg VC gv dt seg.id tol vid off hp)) x hres

/-- C10 witness: an empty index on a 500 m two-lane segment has density 0,
raw 0 and reported score 1, inside (0, 1]. -/
theorem c10_wit_free_flow : (0 : ℚ) < 1 ∧ (1 : ℚ) ≤ 1 :=
  c10_score_range VCex GlobalView.empty 0 segWide (-1) 0 none false 1
    (by
      intro s
      simp only [VehicleClasses.lookup, VCex]
      split_ifs <;> norm_num [truckClassEx, carClassEx])
    (by norm_num [segWide])
    (by
      simp [GlobalView.level_of_service_in_front_of_vehicle, GlobalView.empty,
        GlobalView.load_ahead, vehiclesAhead, alistGet, densityPerMile,
        losFromDensity, lookupLoop, rangesTable, segWide, mile]
      norm_num)

end Ruth
